import Mathlib

/-!
Verification of the `python-demo` example package: data models
(`models.py`), the user service (`user_service.py`), the order service
(`order_service.py`) and the utility functions (`utils.py`), shallowly
embedded in Lean. Python `int` becomes `ℤ`, `float` amounts become `ℚ`
(all literals in the source are exact decimals), `Optional[T]` becomes
`Option T`, and a function that may raise `ValueError` returns
`Except String _` carrying the error message.
-/

namespace PythonDemo

/-- `models.User`: plain record with `id`, `name`, `email`. -/
structure User where
  id : ℤ
  name : String
  email : String
  deriving DecidableEq, Repr

/-- `models.Order`: record with `id`, `user_id`, `product`, `amount`,
and `status` defaulting to `"pending"`. -/
structure Order where
  id : ℤ
  user_id : ℤ
  product : String
  amount : ℚ
  status : String := "pending"
  deriving DecidableEq, Repr

/-- `models.MAX_ORDERS_PER_USER` constant. -/
def MAX_ORDERS_PER_USER : ℕ := 100

/-- `models.DEFAULT_CURRENCY` constant. -/
def DEFAULT_CURRENCY : String := "USD"

/-! ## User service (`user_service.py`) -/

/-- `user_service.get_all_users`: returns the fixed two-element seeded
list on every call. -/
def get_all_users : List User :=
  [⟨1, "Alice", "alice@example.com"⟩, ⟨2, "Bob", "bob@example.com"⟩]

/-- The `for user in users: if user.id == user_id: return user` loop of
`get_user_by_id`, as structural recursion over the list. -/
def findUserLoop (user_id : ℤ) : List User → Option User
  | [] => none
  | u :: us => if u.id = user_id then some u else findUserLoop user_id us

/-- `user_service.get_user_by_id`: linear scan of `get_all_users()`,
first match or `None`. -/
def get_user_by_id (user_id : ℤ) : Option User :=
  findUserLoop user_id get_all_users

/-- `user_service.create_user`: raises `ValueError` when the email is
falsy (empty) or lacks `'@'`; otherwise builds a user with
`id = len(get_all_users()) + 1`. -/
def create_user (name : String) (email : String) : Except String User :=
  if email.isEmpty || !email.data.contains '@' then
    Except.error "Invalid email address"
  else
    Except.ok ⟨(get_all_users.length : ℤ) + 1, name, email⟩

/-- `user_service.update_user`: looks up via `get_user_by_id`; on a hit,
replaces each field whose optional argument is truthy (present and
non-empty), mirroring Python's `if name:` / `if email:` tests. -/
def update_user (user_id : ℤ) (name : Option String) (email : Option String) :
    Option User :=
  match get_user_by_id user_id with
  | none => none
  | some u =>
    let u1 := match name with
      | some n => if n.isEmpty then u else { u with name := n }
      | none => u
    let u2 := match email with
      | some e => if e.isEmpty then u1 else { u1 with email := e }
      | none => u1
    some u2

/-- `user_service.delete_user`: reports whether the user exists; removes
nothing. -/
def delete_user (user_id : ℤ) : Bool :=
  (get_user_by_id user_id).isSome

/-! ## Order service (`order_service.py`) -/

/-- `order_service.get_all_orders`: the fixed two-element seeded list. -/
def get_all_orders : List Order :=
  [⟨1, 1, "Laptop", 999.99, "pending"⟩, ⟨2, 2, "Phone", 699.99, "pending"⟩]

/-- The scan loop of `get_order_by_id`. -/
def findOrderLoop (order_id : ℤ) : List Order → Option Order
  | [] => none
  | o :: os => if o.id = order_id then some o else findOrderLoop order_id os

/-- `order_service.get_order_by_id`: linear scan of `get_all_orders()`,
first match or `None`. -/
def get_order_by_id (order_id : ℤ) : Option Order :=
  findOrderLoop order_id get_all_orders

/-- `order_service.create_order`: raises `ValueError` when
`amount <= 0`; otherwise builds an order with
`id = len(get_all_orders()) + 1` and the default `"pending"` status. -/
def create_order (user_id : ℤ) (product : String) (amount : ℚ) :
    Except String Order :=
  if amount ≤ 0 then
    Except.error "Amount must be positive"
  else
    Except.ok ⟨(get_all_orders.length : ℤ) + 1, user_id, product, amount, "pending"⟩

/-- `order_service.cancel_order`: looks up via `get_order_by_id`; on a
miss returns `False`. On a hit it sets `status = "cancelled"` on the
transient instance and returns `True`; the transient (discarded by the
Python code when the call returns) is carried in the second component. -/
def cancel_order (order_id : ℤ) : Bool × Option Order :=
  match get_order_by_id order_id with
  | none => (false, none)
  | some o => (true, some { o with status := "cancelled" })

/-! ## Utility functions (`utils.py`) -/

/-- The character class `[a-zA-Z0-9._%+-]` of the local part of the
email regex in `validateEmail`. -/
def isLocalChar (c : Char) : Bool :=
  c.isAlpha || c.isDigit || c == '.' || c == '_' || c == '%' || c == '+' || c == '-'

/-- The character class `[a-zA-Z0-9.-]` of the domain part of the email
regex in `validateEmail`. -/
def isDomainChar (c : Char) : Bool :=
  c.isAlpha || c.isDigit || c == '.' || c == '-'

/-- Backtracking matcher for `p+` followed by the continuation `k`:
consumes one or more characters satisfying `p`, then hands the remaining
suffix to `k`, trying every possible split. -/
def matchPlusThen (p : Char → Bool) (k : List Char → Bool) : List Char → Bool
  | [] => false
  | c :: cs => p c && (k cs || matchPlusThen p k cs)

/-- Python's `$` anchor (without `re.MULTILINE`): matches at the end of
the string or just before a single newline that ends the string. -/
def matchDollar (cs : List Char) : Bool :=
  cs.isEmpty || cs == ['\n']

/-- Backtracking matcher for `[a-zA-Z]*$`: consumes letters, accepting
wherever the `$` anchor matches. -/
def matchAlphaStarDollar : List Char → Bool
  | [] => true
  | c :: cs => matchDollar (c :: cs) || (c.isAlpha && matchAlphaStarDollar cs)

/-- Matcher for the anchored tail `[a-zA-Z]{2,}$` of the email regex:
two letters, then further letters up to the `$` anchor. -/
def matchTldEnd : List Char → Bool
  | [] => false
  | [_] => false
  | a :: b :: rest => a.isAlpha && b.isAlpha && matchAlphaStarDollar rest

/-- Matcher for the tail `\.[a-zA-Z]{2,}$` of the email regex. -/
def matchDotTld : List Char → Bool
  | [] => false
  | c :: cs => c == '.' && matchTldEnd cs

/-- Matcher for the tail `@[a-zA-Z0-9.-]+\.[a-zA-Z]{2,}$` of the email
regex. -/
def matchAtDomain : List Char → Bool
  | [] => false
  | c :: cs => c == '@' && matchPlusThen isDomainChar matchDotTld cs

/-- `utils.validateEmail`: `re.match` of the anchored pattern
`^[a-zA-Z0-9._%+-]+@[a-zA-Z0-9.-]+\.[a-zA-Z]{2,}$` against the whole
string, decided by the backtracking matcher above. -/
def validateEmail (email : String) : Bool :=
  matchPlusThen isLocalChar matchAtDomain email.data

/-- The `symbols` dictionary of `utils.FormatCurrency`, as an
association list. -/
def currencySymbols : List (String × String) :=
  [("USD", "$"), ("EUR", "€"), ("GBP", "£")]

/-- Round a rational to the nearest integer, ties to even — the rounding
Python's `format` applies to the (here exact) numeric value. -/
def roundHalfEven (x : ℚ) : ℤ :=
  if x - ⌊x⌋ < 1 / 2 then ⌊x⌋
  else if 1 / 2 < x - ⌊x⌋ then ⌊x⌋ + 1
  else if ⌊x⌋ % 2 = 0 then ⌊x⌋ else ⌊x⌋ + 1

/-- Render a natural number below 100 as exactly two decimal digits. -/
def twoDigits (n : ℕ) : String :=
  String.mk [Nat.digitChar (n / 10 % 10), Nat.digitChar (n % 10)]

/-- Python's `f"{amount:.2f}"`: sign, integer part, `'.'`, and exactly
two fractional digits of the amount rounded to cents. The sign comes
from the amount itself, so a negative amount rounding to zero cents
renders `"-0.00"` as Python does. -/
def formatTwoDec (amount : ℚ) : String :=
  let cents := roundHalfEven (amount * 100)
  let sign := if amount < 0 then "-" else ""
  sign ++ toString (cents.natAbs / 100) ++ "." ++ twoDigits (cents.natAbs % 100)

/-- `utils.FormatCurrency`: `symbols.get(currency, "$")` concatenated
with the amount formatted to two decimal places. -/
def FormatCurrency (amount : ℚ) (currency : String) : String :=
  let symbol := (((currencySymbols.find? (fun p => p.1 == currency)).map Prod.snd).getD "$")
  symbol ++ formatTwoDec amount

/-- `utils.MyConstant`. -/
def MyConstant : ℕ := 42

/-- `utils.calculate_tax`: `amount * tax_rate`, default rate `0.08`. -/
def calculate_tax (amount : ℚ) (tax_rate : ℚ) : ℚ :=
  amount * tax_rate

/-- A dynamically typed Python value, as far as the demo needs one:
`utils.is_valid_id` takes `Any`. Python's `bool` is a subclass of
`int`, so it is kept as a separate constructor whose `isinstance(·, int)`
test succeeds. -/
inductive PyValue where
  | pyInt (n : ℤ)
  | pyBool (b : Bool)
  | pyFloat (q : ℚ)
  | pyStr (s : String)
  | pyNone
  deriving DecidableEq, Repr

/-- `isinstance(value, int)` on a `PyValue`: true for `int` and for its
subclass `bool`. -/
def PyValue.isInstInt : PyValue → Bool
  | .pyInt _ => true
  | .pyBool _ => true
  | _ => false

/-- The integer value of a `PyValue` that is an `int` (Python `True`
compares as `1` and `False` as `0`); `0` otherwise, unused. -/
def PyValue.intVal : PyValue → ℤ
  | .pyInt n => n
  | .pyBool b => if b then 1 else 0
  | _ => 0

/-- `utils.is_valid_id`: `isinstance(id_value, int) and id_value > 0`. -/
def is_valid_id (id_value : PyValue) : Bool :=
  id_value.isInstInt && decide (0 < id_value.intVal)

/-! ## Spec-side auxiliary definitions -/

/-- Spec reading of `update_user`'s field handling: the field is
replaced exactly when the argument is supplied and non-empty. -/
def overrideField (arg : Option String) (old : String) : String :=
  match arg with
  | some s => if s = "" then old else s
  | none => old

/-- Spec reading of the currency symbol map of `FormatCurrency`:
`USD`→`$`, `EUR`→`€`, `GBP`→`£`, any other code→`$`. -/
def symbolSpec (currency : String) : String :=
  if currency = "USD" then "$"
  else if currency = "EUR" then "€"
  else if currency = "GBP" then "£"
  else "$"

/-- Spec reading of `is_valid_id`'s domain test: the Python value is an
integer (`int`, including its subclass `bool`) with that integer value. -/
def PyValue.asInteger : PyValue → Option ℤ
  | .pyInt n => some n
  | .pyBool b => some (if b then 1 else 0)
  | _ => none

/-- Spec reading of the email regex of `validateEmail`: the string
splits as `local@domain.tld` with a non-empty local part over
`[a-zA-Z0-9._%+-]`, a non-empty domain part over `[a-zA-Z0-9.-]`, and a
final all-letter suffix of length at least 2 after a literal dot. -/
def emailShape (email : String) : Prop :=
  ∃ l d t : List Char,
    email.data = l ++ '@' :: (d ++ '.' :: t) ∧
    l ≠ [] ∧ (∀ c ∈ l, isLocalChar c = true) ∧
    d ≠ [] ∧ (∀ c ∈ d, isDomainChar c = true) ∧
    2 ≤ t.length ∧ (∀ c ∈ t, c.isAlpha = true)

/-- The `local@domain.tld` shape of [[emailShape]] relaxed by Python's
`$` semantics: the letter suffix may be followed by one final newline. -/
def emailShapeLax (email : String) : Prop :=
  ∃ l d t r : List Char,
    email.data = l ++ '@' :: (d ++ '.' :: (t ++ r)) ∧
    l ≠ [] ∧ (∀ c ∈ l, isLocalChar c = true) ∧
    d ≠ [] ∧ (∀ c ∈ d, isDomainChar c = true) ∧
    2 ≤ t.length ∧ (∀ c ∈ t, c.isAlpha = true) ∧
    (r = [] ∨ r = ['\n'])

/-- Decision procedure for the strict tail of [[emailShape]]: the whole
remaining suffix is at least two letters, with no trailing newline. -/
def shapeTldCheck (cs : List Char) : Bool :=
  decide (2 ≤ cs.length) && cs.all Char.isAlpha

/-- Decision procedure for the strict `\.` tail of [[emailShape]]. -/
def shapeDotTldCheck : List Char → Bool
  | [] => false
  | c :: cs => c == '.' && shapeTldCheck cs

/-- Decision procedure for the strict `@...` tail of [[emailShape]]. -/
def shapeAtDomainCheck : List Char → Bool
  | [] => false
  | c :: cs => c == '@' && matchPlusThen isDomainChar shapeDotTldCheck cs

/-- Decision procedure for [[emailShape]] itself (strict end-of-string
reading, no trailing-newline allowance). -/
def shapeCheck (email : String) : Bool :=
  matchPlusThen isLocalChar shapeAtDomainCheck email.data

/-! ## Helper lemmas -/

/-- `create_user` succeeds on a non-empty email containing `'@'`. -/
theorem create_user_ok (name email : String)
    (h1 : email ≠ "") (h2 : '@' ∈ email.data) :
    create_user name email =
      Except.ok ⟨(get_all_users.length : ℤ) + 1, name, email⟩ := by
  have e1 : email.isEmpty = false :=
    Bool.eq_false_iff.mpr fun h => h1 ((String.isEmpty_iff email).mp h)
  have e2 : email.data.contains '@' = true := List.elem_iff.mpr h2
  simp [create_user, e1, e2, h2]

/-- `create_user` raises `ValueError` on an empty or `'@'`-less email. -/
theorem create_user_err (name email : String)
    (h : email = "" ∨ '@' ∉ email.data) :
    create_user name email = Except.error "Invalid email address" := by
  rcases h with h | h
  · subst h; rfl
  · have e2 : email.data.contains '@' = false :=
      Bool.eq_false_iff.mpr fun hb => h (List.elem_iff.mp hb)
    simp [create_user, e2, h]

/-! ## Claims -/

/-- C1: `cancel_order 1` reports success, and it marks the transient
instance cancelled, yet a subsequent fresh `get_order_by_id 1` still
returns an order whose status is `"pending"`: the mutation is never
visible to later calls because each call re-materializes the dataset. -/
theorem cancel_order_not_persistent :
    (cancel_order 1).1 = true ∧
    (∃ o, (cancel_order 1).2 = some o ∧ o.status = "cancelled") ∧
    (∃ o, get_order_by_id 1 = some o ∧ o.status = "pending") :=
  ⟨rfl, ⟨⟨1, 1, "Laptop", 999.99, "cancelled"⟩, rfl, rfl⟩,
    ⟨⟨1, 1, "Laptop", 999.99, "pending"⟩, rfl, rfl⟩⟩

/-- C2: for every name and every non-empty email containing `'@'`,
`create_user` returns a user whose `id` is `length (get_all_users) + 1`,
which is always `3` — the seeded list has two elements and, the service
being stateless (every call re-materializes the seed), no prior call
can change that — carrying the given name and email unchanged. -/
theorem create_user_id_always_three (name email : String)
    (h1 : email ≠ "") (h2 : '@' ∈ email.data) :
    create_user name email =
      Except.ok ⟨(get_all_users.length : ℤ) + 1, name, email⟩ ∧
    ((get_all_users.length : ℤ) + 1 = 3) ∧
    create_user name email = Except.ok ⟨3, name, email⟩ :=
  ⟨create_user_ok name email h1 h2, rfl, create_user_ok name email h1 h2⟩

/-- C2 witness: `create_user "Carl" "carl@x.com"` returns the user
`⟨3, "Carl", "carl@x.com"⟩`, so in particular one with `id = 3` and
`name = "Carl"`. -/
theorem create_user_id_always_three_witness :
    create_user "Carl" "carl@x.com" =
      Except.ok ⟨3, "Carl", "carl@x.com"⟩ ∧
    (∃ u, create_user "Carl" "carl@x.com" = Except.ok u ∧
      u.id = 3 ∧ u.name = "Carl") := by
  have h := create_user_id_always_three "Carl" "carl@x.com"
    (by decide) (by decide)
  exact ⟨h.2.2, ⟨_, h.2.2, rfl, rfl⟩⟩

/-- C3: `create_user name email` raises a validation error exactly when
the email is empty or lacks `'@'`; on all other inputs it returns a
user. In particular `create_user "X" "bad-email"` fails. -/
theorem create_user_error_iff (name email : String) :
    ((∃ msg, create_user name email = Except.error msg) ↔
      (email = "" ∨ '@' ∉ email.data)) ∧
    ((email ≠ "" ∧ '@' ∈ email.data) →
      ∃ u, create_user name email = Except.ok u) ∧
    (∃ msg, create_user "X" "bad-email" = Except.error msg) := by
  refine ⟨?_, fun h => ⟨_, create_user_ok name email h.1 h.2⟩,
    ⟨"Invalid email address", rfl⟩⟩
  by_cases hc : email = "" ∨ '@' ∉ email.data
  · exact iff_of_true ⟨_, create_user_err name email hc⟩ hc
  · refine iff_of_false ?_ hc
    rintro ⟨msg, hmsg⟩
    rw [not_or, not_not] at hc
    rw [create_user_ok name email hc.1 hc.2] at hmsg
    exact Except.noConfusion hmsg

/-- C3 witness: at `email = "bad-email"` the error side of the
equivalence holds, and at `email = "carl@x.com"` the success side. -/
theorem create_user_error_iff_witness :
    (∃ msg, create_user "X" "bad-email" = Except.error msg) ∧
    (∃ u, create_user "Y" "y@z.co" = Except.ok u) :=
  ⟨(create_user_error_iff "X" "bad-email").1.mpr (by decide),
    (create_user_error_iff "Y" "y@z.co").2.1 ⟨by decide, by decide⟩⟩

/-- C4: `create_order user_id product amount` raises a validation error
exactly when `amount ≤ 0`; when `0 < amount` it returns the order
`⟨length (get_all_orders) + 1 = 3, user_id, product, amount, "pending"⟩`,
with no referential-integrity check on `user_id` and no non-emptiness
check on `product`. -/
theorem create_order_spec (user_id : ℤ) (product : String) (amount : ℚ) :
    ((∃ msg, create_order user_id product amount = Except.error msg) ↔
      amount ≤ 0) ∧
    (0 < amount →
      create_order user_id product amount =
        Except.ok ⟨(get_all_orders.length : ℤ) + 1, user_id, product, amount, "pending"⟩) ∧
    ((get_all_orders.length : ℤ) + 1 = 3) := by
  refine ⟨?_, ?_, rfl⟩
  · by_cases h : amount ≤ 0
    · simp [create_order, h]
    · simp [create_order, h]
  · intro h
    have h' : ¬ amount ≤ 0 := not_le.mpr h
    simp [create_order, h']

/-- C4 witness: `create_order 1 "Tablet" (-5)` fails with a validation
error and `create_order 1 "Tablet" 5` returns the pending order with
id 3. -/
theorem create_order_spec_witness :
    (∃ msg, create_order 1 "Tablet" (-5) = Except.error msg) ∧
    create_order 1 "Tablet" 5 =
      Except.ok ⟨3, 1, "Tablet", 5, "pending"⟩ :=
  ⟨(create_order_spec 1 "Tablet" (-5)).1.mpr (by norm_num),
    (create_order_spec 1 "Tablet" 5).2.1 (by norm_num)⟩

/-- The scan loop misses exactly when no element has the wanted id. -/
theorem findUserLoop_eq_none_iff (user_id : ℤ) (l : List User) :
    findUserLoop user_id l = none ↔ ∀ u ∈ l, u.id ≠ user_id := by
  induction l with
  | nil => simp [findUserLoop]
  | cons u us ih =>
    by_cases h : u.id = user_id
    · simp [findUserLoop, h]
    · simp [findUserLoop, h, ih]

/-- A hit of the scan loop is the first element with the wanted id. -/
theorem findUserLoop_eq_some (user_id : ℤ) (l : List User) (u : User)
    (hfind : findUserLoop user_id l = some u) :
    u.id = user_id ∧
      ∃ pre post, l = pre ++ u :: post ∧ ∀ v ∈ pre, v.id ≠ user_id := by
  induction l with
  | nil => exact absurd hfind (by simp [findUserLoop])
  | cons w ws ih =>
    rw [findUserLoop] at hfind
    by_cases h : w.id = user_id
    · rw [if_pos h] at hfind
      obtain rfl : w = u := Option.some.inj hfind
      exact ⟨h, [], ws, rfl, by simp⟩
    · rw [if_neg h] at hfind
      obtain ⟨hid, pre, post, hsplit, hpre⟩ := ih hfind
      refine ⟨hid, w :: pre, post, by rw [hsplit, List.cons_append], ?_⟩
      intro v hv
      rcases List.mem_cons.mp hv with rfl | hv
      · exact h
      · exact hpre v hv

/-- C5: `get_user_by_id` linearly scans `get_all_users` and returns
the first user with the wanted id, or `None` when no user matches (it
never raises); in particular id `1` yields Alice and id `999` yields
`None`. -/
theorem get_user_by_id_spec :
    (∀ user_id : ℤ,
      (get_user_by_id user_id = none ↔
        ∀ u ∈ get_all_users, u.id ≠ user_id) ∧
      (∀ u, get_user_by_id user_id = some u →
        u.id = user_id ∧
          ∃ pre post, get_all_users = pre ++ u :: post ∧
            ∀ v ∈ pre, v.id ≠ user_id)) ∧
    get_user_by_id 1 = some ⟨1, "Alice", "alice@example.com"⟩ ∧
    get_user_by_id 999 = none :=
  ⟨fun user_id =>
    ⟨findUserLoop_eq_none_iff user_id get_all_users,
      fun u => findUserLoop_eq_some user_id get_all_users u⟩,
    rfl, rfl⟩

/-- C5 witness: instantiating the scan characterization at id `1` and
the concrete hit recorded by the claim itself. -/
theorem get_user_by_id_spec_witness :
    (⟨1, "Alice", "alice@example.com"⟩ : User).id = 1 :=
  ((get_user_by_id_spec.1 1).2 ⟨1, "Alice", "alice@example.com"⟩
    get_user_by_id_spec.2.1).1

/-- C6: `update_user` returns `None` exactly on a missed lookup; on a
hit it returns the looked-up user with each of `name` and `email`
replaced exactly when the corresponding argument is supplied and
non-empty, all other fields keeping their seeded value. -/
theorem update_user_spec (user_id : ℤ) (name email : Option String) :
    (get_user_by_id user_id = none → update_user user_id name email = none) ∧
    (∀ u, get_user_by_id user_id = some u →
      update_user user_id name email =
        some ⟨u.id, overrideField name u.name, overrideField email u.email⟩) := by
  constructor
  · intro h
    simp [update_user, h]
  · intro u h
    rw [update_user, h]
    simp only [String.isEmpty_iff]
    cases name with
    | none =>
      cases email with
      | none => simp [overrideField]
      | some e => by_cases he : e = "" <;> simp [overrideField, he]
    | some n =>
      cases email with
      | none => by_cases hn : n = "" <;> simp [overrideField, hn]
      | some e =>
        by_cases hn : n = "" <;> by_cases he : e = "" <;>
          simp [overrideField, hn, he]

/-- C6 witness: a missed lookup returns `None`, and on the seeded user
`1` a supplied non-empty name replaces the name while the absent email
argument leaves the seeded email unchanged. -/
theorem update_user_spec_witness :
    update_user 42 (some "Zed") none = none ∧
    update_user 1 (some "Al") none = some ⟨1, "Al", "alice@example.com"⟩ :=
  ⟨(update_user_spec 42 (some "Zed") none).1 rfl,
    (update_user_spec 1 (some "Al") none).2 ⟨1, "Alice", "alice@example.com"⟩ rfl⟩

/-- The backtracking `p+ k` matcher accepts exactly the strings that
split into a non-empty block of `p`-characters followed by a suffix
accepted by `k`. -/
theorem matchPlusThen_iff (p : Char → Bool) (k : List Char → Bool)
    (cs : List Char) :
    matchPlusThen p k cs = true ↔
      ∃ l r, cs = l ++ r ∧ l ≠ [] ∧ (∀ c ∈ l, p c = true) ∧ k r = true := by
  induction cs with
  | nil =>
    simp only [matchPlusThen, Bool.false_eq_true, false_iff]
    rintro ⟨l, r, hsplit, hne, -, -⟩
    exact hne (List.append_eq_nil.mp hsplit.symm).1
  | cons c cs ih =>
    simp only [matchPlusThen, Bool.and_eq_true, Bool.or_eq_true]
    constructor
    · rintro ⟨hp, hk | hrest⟩
      · exact ⟨[c], cs, rfl, by simp, by simp [hp], hk⟩
      · obtain ⟨l, r, hsplit, -, hall, hk⟩ := ih.mp hrest
        refine ⟨c :: l, r, by simp [hsplit], by simp, ?_, hk⟩
        intro x hx
        rcases List.mem_cons.mp hx with rfl | hx
        · exact hp
        · exact hall x hx
    · rintro ⟨l, r, hsplit, hne, hall, hk⟩
      match l, hne with
      | x :: l2, _ =>
        rw [List.cons_append] at hsplit
        injection hsplit with hx htail
        subst hx
        refine ⟨hall c (List.mem_cons_self c l2), ?_⟩
        cases l2 with
        | nil =>
          rw [List.nil_append] at htail
          exact Or.inl (htail ▸ hk)
        | cons y l3 =>
          exact Or.inr (ih.mpr ⟨y :: l3, r, htail, by simp,
            fun z hz => hall z (List.mem_cons_of_mem c hz), hk⟩)

/-- Python's `$` anchor succeeds exactly on the empty suffix or a lone
newline suffix. -/
theorem matchDollar_iff (cs : List Char) :
    matchDollar cs = true ↔ cs = [] ∨ cs = ['\n'] := by
  cases cs with
  | nil => simp [matchDollar]
  | cons c cs => simp [matchDollar]

/-- The `[a-zA-Z]*$` matcher accepts exactly a block of letters
followed by a suffix where the `$` anchor matches. -/
theorem matchAlphaStarDollar_iff (cs : List Char) :
    matchAlphaStarDollar cs = true ↔
      ∃ t r, cs = t ++ r ∧ (∀ c ∈ t, c.isAlpha = true) ∧
        (r = [] ∨ r = ['\n']) := by
  induction cs with
  | nil =>
    simp only [matchAlphaStarDollar, true_iff]
    exact ⟨[], [], rfl, by simp, Or.inl rfl⟩
  | cons c cs ih =>
    simp only [matchAlphaStarDollar, Bool.or_eq_true, Bool.and_eq_true]
    constructor
    · rintro (hd | ⟨ha, hrec⟩)
      · exact ⟨[], c :: cs, rfl, by simp, (matchDollar_iff _).mp hd⟩
      · obtain ⟨t, r, hsplit, hall, hr⟩ := ih.mp hrec
        refine ⟨c :: t, r, by simp [hsplit], ?_, hr⟩
        intro z hz
        rcases List.mem_cons.mp hz with rfl | hz
        · exact ha
        · exact hall z hz
    · rintro ⟨t, r, hsplit, hall, hr⟩
      cases t with
      | nil =>
        rw [List.nil_append] at hsplit
        subst hsplit
        exact Or.inl ((matchDollar_iff _).mpr hr)
      | cons x t2 =>
        rw [List.cons_append] at hsplit
        injection hsplit with h1 h2
        subst h1
        exact Or.inr ⟨hall c (List.mem_cons_self c t2),
          ih.mpr ⟨t2, r, h2, fun z hz => hall z (List.mem_cons_of_mem c hz), hr⟩⟩

/-- The `[a-zA-Z]{2,}$` tail matcher accepts exactly a block of at
least two letters followed by a suffix accepted by the `$` anchor. -/
theorem matchTldEnd_iff (cs : List Char) :
    matchTldEnd cs = true ↔
      ∃ t r, cs = t ++ r ∧ 2 ≤ t.length ∧ (∀ c ∈ t, c.isAlpha = true) ∧
        (r = [] ∨ r = ['\n']) := by
  constructor
  · intro h
    cases cs with
    | nil => exact absurd h (by simp [matchTldEnd])
    | cons a cs1 =>
      cases cs1 with
      | nil => exact absurd h (by simp [matchTldEnd])
      | cons b rest =>
        simp only [matchTldEnd, Bool.and_eq_true] at h
        obtain ⟨⟨ha, hb⟩, hstar⟩ := h
        obtain ⟨t, r, hsplit, hall, hr⟩ := (matchAlphaStarDollar_iff rest).mp hstar
        refine ⟨a :: b :: t, r, by simp [hsplit], by simp, ?_, hr⟩
        intro z hz
        rcases List.mem_cons.mp hz with rfl | hz
        · exact ha
        rcases List.mem_cons.mp hz with rfl | hz
        · exact hb
        · exact hall z hz
  · rintro ⟨t, r, hsplit, hlen, hall, hr⟩
    cases t with
    | nil => simp at hlen
    | cons a t1 =>
      cases t1 with
      | nil => simp at hlen
      | cons b t2 =>
        subst hsplit
        simp only [List.cons_append, matchTldEnd, Bool.and_eq_true]
        refine ⟨⟨hall a (by simp), hall b (by simp)⟩, ?_⟩
        exact (matchAlphaStarDollar_iff _).mpr
          ⟨t2, r, rfl, fun z hz => hall z (by simp [hz]), hr⟩

/-- The `\.[a-zA-Z]{2,}$` tail matcher accepts exactly a dot followed
by at least two letters and an accepted `$` suffix. -/
theorem matchDotTld_iff (cs : List Char) :
    matchDotTld cs = true ↔
      ∃ t r, cs = '.' :: (t ++ r) ∧ 2 ≤ t.length ∧
        (∀ c ∈ t, c.isAlpha = true) ∧ (r = [] ∨ r = ['\n']) := by
  cases cs with
  | nil => simp [matchDotTld]
  | cons c cs =>
    simp only [matchDotTld, Bool.and_eq_true, beq_iff_eq]
    constructor
    · rintro ⟨rfl, h⟩
      obtain ⟨t, r, hsplit, hlen, hall, hr⟩ := (matchTldEnd_iff cs).mp h
      exact ⟨t, r, by rw [hsplit], hlen, hall, hr⟩
    · rintro ⟨t, r, heq, hlen, hall, hr⟩
      injection heq with h1 h2
      subst h1
      exact ⟨rfl, (matchTldEnd_iff cs).mpr ⟨t, r, h2, hlen, hall, hr⟩⟩

/-- The `@[a-zA-Z0-9.-]+\.[a-zA-Z]{2,}$` tail matcher accepts exactly
an `'@'` followed by a suffix accepted by the domain matcher. -/
theorem matchAtDomain_iff (cs : List Char) :
    matchAtDomain cs = true ↔
      ∃ rest, cs = '@' :: rest ∧
        matchPlusThen isDomainChar matchDotTld rest = true := by
  cases cs with
  | nil => simp [matchAtDomain]
  | cons c cs =>
    simp only [matchAtDomain, Bool.and_eq_true, beq_iff_eq]
    constructor
    · rintro ⟨rfl, hmatch⟩
      exact ⟨cs, rfl, hmatch⟩
    · rintro ⟨rest, heq, hmatch⟩
      injection heq with h1 h2
      subst h1; subst h2
      exact ⟨rfl, hmatch⟩

/-- The strict `\.` tail checker decides a dot followed by at least two
letters running to the very end. -/
theorem shapeDotTldCheck_iff (cs : List Char) :
    shapeDotTldCheck cs = true ↔
      ∃ t, cs = '.' :: t ∧ 2 ≤ t.length ∧ ∀ c ∈ t, c.isAlpha = true := by
  cases cs with
  | nil => simp [shapeDotTldCheck]
  | cons c cs =>
    simp only [shapeDotTldCheck, shapeTldCheck, Bool.and_eq_true, beq_iff_eq,
      decide_eq_true_eq, List.all_eq_true]
    constructor
    · rintro ⟨rfl, hlen, hall⟩
      exact ⟨cs, rfl, hlen, hall⟩
    · rintro ⟨t, heq, hlen, hall⟩
      injection heq with h1 h2
      subst h1; subst h2
      exact ⟨rfl, hlen, hall⟩

/-- The strict `@...` tail checker decides an `'@'` followed by a
suffix accepted by the strict domain checker. -/
theorem shapeAtDomainCheck_iff (cs : List Char) :
    shapeAtDomainCheck cs = true ↔
      ∃ rest, cs = '@' :: rest ∧
        matchPlusThen isDomainChar shapeDotTldCheck rest = true := by
  cases cs with
  | nil => simp [shapeAtDomainCheck]
  | cons c cs =>
    simp only [shapeAtDomainCheck, Bool.and_eq_true, beq_iff_eq]
    constructor
    · rintro ⟨rfl, hmatch⟩
      exact ⟨cs, rfl, hmatch⟩
    · rintro ⟨rest, heq, hmatch⟩
      injection heq with h1 h2
      subst h1; subst h2
      exact ⟨rfl, hmatch⟩

/-- The strict checker decides the claim's `local@domain.tld` shape. -/
theorem shapeCheck_iff (email : String) :
    shapeCheck email = true ↔ emailShape email := by
  unfold shapeCheck emailShape
  rw [matchPlusThen_iff]
  constructor
  · rintro ⟨l, r, hsplit, hlne, hlall, hk⟩
    rw [shapeAtDomainCheck_iff] at hk
    obtain ⟨r2, rfl, hk⟩ := hk
    rw [matchPlusThen_iff] at hk
    obtain ⟨d, r3, rfl, hdne, hdall, hk⟩ := hk
    rw [shapeDotTldCheck_iff] at hk
    obtain ⟨t, rfl, htlen, htall⟩ := hk
    exact ⟨l, d, t, hsplit, hlne, hlall, hdne, hdall, htlen, htall⟩
  · rintro ⟨l, d, t, hsplit, hlne, hlall, hdne, hdall, htlen, htall⟩
    refine ⟨l, '@' :: (d ++ '.' :: t), hsplit, hlne, hlall, ?_⟩
    rw [shapeAtDomainCheck_iff]
    refine ⟨d ++ '.' :: t, rfl, ?_⟩
    rw [matchPlusThen_iff]
    refine ⟨d, '.' :: t, rfl, hdne, hdall, ?_⟩
    rw [shapeDotTldCheck_iff]
    exact ⟨t, rfl, htlen, htall⟩

/-- C7 counterexample: Python's `$` also matches just before a trailing
newline, so `validateEmail "a@b.co\n"` is true although the string does
not have the claim's plain `local@domain.tld` shape — the claimed
equivalence fails at this input. -/
theorem validateEmail_newline_counterexample :
    validateEmail "a@b.co\n" = true ∧ ¬ emailShape "a@b.co\n" := by
  refine ⟨by decide, fun h => ?_⟩
  have hc : shapeCheck "a@b.co\n" = true := (shapeCheck_iff "a@b.co\n").mpr h
  exact absurd hc (by decide)

/-- C7 amended: `validateEmail` accepts exactly the strings of the
shape `local@domain.tld` — non-empty local part over `[a-zA-Z0-9._%+-]`,
non-empty domain part over `[a-zA-Z0-9.-]`, and a final suffix of at
least two letters after a literal dot — optionally followed by one
trailing newline (Python's `$` matches there too); in particular it
accepts `"a@b.co"` and rejects `"no-at-sign"`. -/
theorem validateEmail_spec_amended :
    (∀ email : String, validateEmail email = true ↔ emailShapeLax email) ∧
    validateEmail "a@b.co" = true ∧
    validateEmail "no-at-sign" = false := by
  refine ⟨?_, by decide, by decide⟩
  intro email
  unfold validateEmail emailShapeLax
  rw [matchPlusThen_iff]
  constructor
  · rintro ⟨l, r0, hsplit, hlne, hlall, hk⟩
    rw [matchAtDomain_iff] at hk
    obtain ⟨r2, rfl, hk⟩ := hk
    rw [matchPlusThen_iff] at hk
    obtain ⟨d, r3, rfl, hdne, hdall, hk⟩ := hk
    rw [matchDotTld_iff] at hk
    obtain ⟨t, r, rfl, htlen, htall, hr⟩ := hk
    exact ⟨l, d, t, r, hsplit, hlne, hlall, hdne, hdall, htlen, htall, hr⟩
  · rintro ⟨l, d, t, r, hsplit, hlne, hlall, hdne, hdall, htlen, htall, hr⟩
    refine ⟨l, '@' :: (d ++ '.' :: (t ++ r)), hsplit, hlne, hlall, ?_⟩
    rw [matchAtDomain_iff]
    refine ⟨d ++ '.' :: (t ++ r), rfl, ?_⟩
    rw [matchPlusThen_iff]
    refine ⟨d, '.' :: (t ++ r), rfl, hdne, hdall, ?_⟩
    rw [matchDotTld_iff]
    exact ⟨t, r, rfl, htlen, htall, hr⟩

/-- C7 witness: the accepted example `"a@b.co"` indeed has the relaxed
`local@domain.tld` shape, by instantiating the equivalence there. -/
theorem validateEmail_spec_amended_witness : emailShapeLax "a@b.co" :=
  (validateEmail_spec_amended.1 "a@b.co").mp validateEmail_spec_amended.2.1

/-- C8: `FormatCurrency` maps the currency code to its symbol
(`USD`→`$`, `EUR`→`€`, `GBP`→`£`, anything else→`$`) and concatenates
it with the amount rendered with exactly two decimal places; in
particular `(1234.5, "EUR")` gives `"€1234.50"` and `(1, "JPY")` gives
`"$1.00"`. -/
theorem FormatCurrency_spec :
    (∀ (amount : ℚ) (currency : String),
      FormatCurrency amount currency =
        symbolSpec currency ++ formatTwoDec amount) ∧
    (∀ amount : ℚ, ∃ intPart fracPart,
      formatTwoDec amount = intPart ++ "." ++ fracPart ∧
        fracPart.length = 2) ∧
    FormatCurrency 1234.5 "EUR" = "€1234.50" ∧
    FormatCurrency 1 "JPY" = "$1.00" := by
  refine ⟨?_, fun amount => ⟨_, _, rfl, rfl⟩, ?_, ?_⟩
  · intro amount currency
    by_cases h1 : currency = "USD"
    · subst h1; rfl
    by_cases h2 : currency = "EUR"
    · subst h2; rfl
    by_cases h3 : currency = "GBP"
    · subst h3; rfl
    have e1 : ("USD" == currency) = false := beq_eq_false_iff_ne.mpr (Ne.symm h1)
    have e2 : ("EUR" == currency) = false := beq_eq_false_iff_ne.mpr (Ne.symm h2)
    have e3 : ("GBP" == currency) = false := beq_eq_false_iff_ne.mpr (Ne.symm h3)
    simp [FormatCurrency, currencySymbols, symbolSpec, e1, e2, e3, h1, h2, h3]
  · have h2 : roundHalfEven ((1234.5 : ℚ) * 100) = 123450 := by
      have h : (1234.5 : ℚ) * 100 = 123450 := by norm_num
      rw [h]; norm_num [roundHalfEven]
    have hs : ¬ ((1234.5 : ℚ) < 0) := by norm_num
    simp only [FormatCurrency, formatTwoDec, h2, currencySymbols, if_neg hs]
    rfl
  · have h2 : roundHalfEven ((1 : ℚ) * 100) = 100 := by
      norm_num [roundHalfEven]
    have hs : ¬ ((1 : ℚ) < 0) := by norm_num
    simp only [FormatCurrency, formatTwoDec, h2, currencySymbols, if_neg hs]
    rfl

/-- C8 witness: the symbol decomposition at a concrete unknown-code
input. -/
theorem FormatCurrency_spec_witness :
    FormatCurrency 2 "AUD" = symbolSpec "AUD" ++ formatTwoDec 2 :=
  FormatCurrency_spec.1 2 "AUD"

/-- C9: `is_valid_id` returns true exactly when the dynamically typed
value is an integer (in Python's sense, where `bool` is a subclass of
`int`) strictly greater than zero; in particular `-1` and the
non-integer float `5.0` are rejected and `5` is accepted. -/
theorem is_valid_id_spec :
    (∀ v : PyValue, is_valid_id v = true ↔
      ∃ n, v.asInteger = some n ∧ 0 < n) ∧
    is_valid_id (.pyInt (-1)) = false ∧
    is_valid_id (.pyInt 5) = true ∧
    is_valid_id (.pyFloat 5) = false := by
  refine ⟨?_, rfl, rfl, rfl⟩
  intro v
  cases v with
  | pyInt n =>
    simp [is_valid_id, PyValue.isInstInt, PyValue.intVal, PyValue.asInteger]
  | pyBool b =>
    cases b <;>
      simp [is_valid_id, PyValue.isInstInt, PyValue.intVal, PyValue.asInteger]
  | pyFloat q => simp [is_valid_id, PyValue.isInstInt, PyValue.asInteger]
  | pyStr s => simp [is_valid_id, PyValue.isInstInt, PyValue.asInteger]
  | pyNone => simp [is_valid_id, PyValue.isInstInt, PyValue.asInteger]

/-- C9 witness: instantiating the equivalence at the accepted input
`5`. -/
theorem is_valid_id_spec_witness :
    ∃ n, (PyValue.pyInt 5).asInteger = some n ∧ 0 < n :=
  (is_valid_id_spec.1 (.pyInt 5)).mp is_valid_id_spec.2.2.1

/-- C10: `create_user`'s email check is strictly weaker than
`validateEmail`: the email `"a@b"` contains `'@'` but is rejected by
`validateEmail`, yet `create_user` accepts it for every name and
returns the user carrying that email unchanged. -/
theorem create_user_weaker_than_validateEmail :
    ('@' ∈ "a@b".data) ∧
    validateEmail "a@b" = false ∧
    ∀ name, create_user name "a@b" = Except.ok ⟨3, name, "a@b"⟩ :=
  ⟨by decide, by decide, fun name => rfl⟩

end PythonDemo
